import Mathlib

/-!
Shallow embedding of the gamma-exposure analysis engine
(`gamma_exposure_analyzer.py` and `src/gamma_calculator.py`).

Numbers are modelled as rationals (`ℚ`): the Python code computes with
floats, which are embedded as exact arithmetic here.  The transcendental
primitives the code takes from numpy/scipy (`np.log`, `np.sqrt`,
`scipy.stats.norm.pdf`, `scipy.stats.norm.cdf`) are abstracted as a
parameter structure `Prims`; every formula of the source is translated
literally in terms of those primitives, so the algebraic and structural
facts proved below hold for any interpretation of them.

Option records mirror the yfinance option-chain rows consumed by
`GammaExposureAnalyzer.calculate_gamma_exposure`; missing values
(`pd.isna`) are modelled with `Option`.
-/

/-- Option class: the `type` column of the chain, `'call'` or `'put'`. -/
inductive OptClass
  | call
  | put
deriving DecidableEq, Repr, Inhabited

/-- Abstracted numeric primitives supplied by numpy/scipy. -/
structure Prims where
  log : ℚ → ℚ
  sqrt : ℚ → ℚ
  pdf : ℚ → ℚ
  cdf : ℚ → ℚ

/-- Greeks dictionary returned by `GammaExposureAnalyzer.black_scholes_greeks`. -/
structure Greeks where
  delta : ℚ
  gamma : ℚ
  vanna : ℚ
  charm : ℚ
deriving DecidableEq, Repr, Inhabited

/-- One row of the options snapshot fed to the exposure calculator
(columns `strike`, `expiration`, `days_to_expiration`, `type`,
`openInterest`, `impliedVolatility`, `lastPrice`, `volume`).
`openInterest` and `impliedVolatility` are `Option`-valued to model
`pd.isna`.  `expiration` is a date key (chronologically ordered `ℕ`). -/
structure OptionRecord where
  strike : ℚ
  expiration : ℕ
  days_to_expiration : ℤ
  type : OptClass
  openInterest : Option ℕ
  impliedVolatility : Option ℚ
  lastPrice : Option ℚ
  volume : Option ℚ
deriving DecidableEq, Repr, Inhabited

/-- One emitted exposure row: the dict appended to `gamma_exposure_list`
in `GammaExposureAnalyzer.calculate_gamma_exposure`. -/
structure ExposureRecord where
  expiration : ℕ
  days_to_expiration : ℤ
  strike : ℚ
  type : OptClass
  open_interest : ℚ
  implied_volatility : ℚ
  delta : ℚ
  gamma : ℚ
  vanna : ℚ
  charm : ℚ
  gamma_exposure : ℚ
  vanna_exposure : ℚ
  charm_exposure : ℚ
  last_price : ℚ
  volume : ℚ
deriving DecidableEq, Repr, Inhabited

/-- Embedding of `GammaExposureAnalyzer.black_scholes_greeks` (lines 92-123).
If `T <= 0 or sigma <= 0` the method returns all-zero Greeks; otherwise it
computes d1, d2 and the four sensitivities.  The same charm expression is
used for both calls and puts, exactly as in the source. -/
def black_scholes_greeks (P : Prims) (S K T r sigma : ℚ) (option_type : OptClass) : Greeks :=
  if T ≤ 0 ∨ sigma ≤ 0 then { delta := 0, gamma := 0, vanna := 0, charm := 0 }
  else
    let sqrtT := P.sqrt T
    let d1 := (P.log (S / K) + (r + (1 / 2) * sigma ^ 2) * T) / (sigma * sqrtT)
    let d2 := d1 - sigma * sqrtT
    let delta :=
      match option_type with
      | OptClass.call => P.cdf d1
      | OptClass.put => P.cdf d1 - 1
    let charm := -P.pdf d1 * (2 * r * T - d2 * sigma * sqrtT) / (2 * T * sigma * sqrtT)
    let gamma := P.pdf d1 / (S * sigma * sqrtT)
    let vanna := -P.pdf d1 * d2 / sigma
    { delta := delta, gamma := gamma, vanna := vanna, charm := charm }

/-- Per-record body of the loop in
`GammaExposureAnalyzer.calculate_gamma_exposure` (lines 142-201): skip the
record when open interest or implied volatility is missing, when
`openInterest == 0`, or when `impliedVolatility <= 0`; otherwise compute the
Greeks with `T = days_to_expiration / 365` and emit one exposure row with
the dealer sign convention of lines 167-180. -/
def processOption (P : Prims) (S r : ℚ) (o : OptionRecord) : Option ExposureRecord :=
  match o.openInterest, o.impliedVolatility with
  | some oi, some iv =>
    if oi = 0 then none
    else if iv ≤ 0 then none
    else
      let g := black_scholes_greeks P S o.strike ((o.days_to_expiration : ℚ) / 365) r iv o.type
      let dealer_gamma_exposure : ℚ :=
        match o.type with
        | OptClass.call => -((oi : ℚ) * g.gamma * 100 * S ^ 2 * (1 / 100))
        | OptClass.put => (oi : ℚ) * g.gamma * 100 * S ^ 2 * (1 / 100)
      let dealer_vanna_exposure : ℚ := -((oi : ℚ) * g.vanna * 100 * S * (1 / 100))
      let dealer_charm_exposure : ℚ := -((oi : ℚ) * g.charm * 100 * S * (1 / 100))
      some
        { expiration := o.expiration
          days_to_expiration := o.days_to_expiration
          strike := o.strike
          type := o.type
          open_interest := (oi : ℚ)
          implied_volatility := iv
          delta := g.delta
          gamma := g.gamma
          vanna := g.vanna
          charm := g.charm
          gamma_exposure := dealer_gamma_exposure
          vanna_exposure := dealer_vanna_exposure
          charm_exposure := dealer_charm_exposure
          last_price := o.lastPrice.getD 0
          volume := o.volume.getD 0 }
  | _, _ => none

/-- Return value of `GammaExposureAnalyzer.calculate_gamma_exposure`
(lines 125-221): `None` when the snapshot is empty or the current price is
missing (entry guard, lines 130-132), `None` when no record survives the
quality filter (lines 218-221), otherwise the list of emitted rows. -/
def calculate_gamma_exposure (P : Prims) (r : ℚ) (optionsData : List OptionRecord)
    (currentPrice : Option ℚ) : Option (List ExposureRecord) :=
  if optionsData = [] ∨ currentPrice = none then none
  else
    match currentPrice with
    | none => none
    | some S =>
      let l := optionsData.filterMap (processOption P S r)
      if l = [] then none else some l

/-- Value of the `self.gamma_exposure_data` attribute after
`calculate_gamma_exposure` returns (line 208 assigns the DataFrame built
from the emitted rows even when that list is empty; the attribute keeps its
initial `None` only when the entry guard returned early). -/
def gamma_exposure_data_after (P : Prims) (r : ℚ) (optionsData : List OptionRecord)
    (currentPrice : Option ℚ) : Option (List ExposureRecord) :=
  if optionsData = [] ∨ currentPrice = none then none
  else
    match currentPrice with
    | none => none
    | some S => some (optionsData.filterMap (processOption P S r))

/-- Ascending ordered insert of a grouping key, skipping duplicates:
models the sorted distinct keys a pandas `groupby`/`pivot_table` produces. -/
def insertKey {α : Type} [LinearOrder α] (x : α) : List α → List α
  | [] => [x]
  | y :: ys => if x < y then x :: y :: ys else if x = y then y :: ys else y :: insertKey x ys

/-- Sorted list of the distinct elements of `l`, ascending. -/
def sortedKeys {α : Type} [LinearOrder α] (l : List α) : List α :=
  l.foldr insertKey []

/-- Sum of `gamma_exposure` over the records at strike `k`
(the `'gamma_exposure': 'sum'` aggregation of line 232). -/
def sumGE (rs : List ExposureRecord) (k : ℚ) : ℚ :=
  ((rs.filter fun r => decide (r.strike = k)).map fun r => r.gamma_exposure).sum

/-- Sum of `vanna_exposure` over the records at strike `k` (line 233). -/
def sumVE (rs : List ExposureRecord) (k : ℚ) : ℚ :=
  ((rs.filter fun r => decide (r.strike = k)).map fun r => r.vanna_exposure).sum

/-- Sum of `open_interest` over the records at strike `k` (line 234). -/
def sumOI (rs : List ExposureRecord) (k : ℚ) : ℚ :=
  ((rs.filter fun r => decide (r.strike = k)).map fun r => r.open_interest).sum

/-- Maximum of a list of rationals (0 on the empty list, which the code
never reaches: `idxmax` is only called on a non-empty column). -/
def maxVal : List ℚ → ℚ
  | [] => 0
  | [x] => x
  | x :: y :: ys => max x (maxVal (y :: ys))

/-- Position of the first occurrence of the maximum — pandas
`Series.idxmax` on a 0-based range index (line 242). -/
def idxmax : List ℚ → ℕ
  | [] => 0
  | [_] => 0
  | x :: y :: ys => if x < maxVal (y :: ys) then idxmax (y :: ys) + 1 else 0

/-- One row of the by-strike aggregate produced by
`GammaExposureAnalyzer.aggregate_gamma_by_strike` (lines 223-246). -/
structure StrikeRow where
  strike : ℚ
  gamma_exposure : ℚ
  vanna_exposure : ℚ
  open_interest : ℚ
  abs_gamma_exposure : ℚ
  is_king_node : Bool
deriving DecidableEq, Repr, Inhabited

/-- Distinct strikes of the exposure set, ascending (groupby key order
after `sort_values('strike')`, line 238). -/
def strikeKeysOf (rs : List ExposureRecord) : List ℚ :=
  sortedKeys (rs.map fun r => r.strike)

/-- The `abs_gamma_exposure` column of the by-strike aggregate (line 241). -/
def absGEList (rs : List ExposureRecord) : List ℚ :=
  (strikeKeysOf rs).map fun k => |sumGE rs k|

/-- Strike of the row `idxmax` selects as king node (line 242). -/
def kingStrikeOf (rs : List ExposureRecord) : ℚ :=
  (strikeKeysOf rs).getD (idxmax (absGEList rs)) 0

/-- The aggregate row for strike `k`: summed exposures and open interest,
absolute gamma exposure, and the king-node flag of lines 243-244. -/
def strikeRowOf (rs : List ExposureRecord) (k : ℚ) : StrikeRow :=
  { strike := k
    gamma_exposure := sumGE rs k
    vanna_exposure := sumVE rs k
    open_interest := sumOI rs k
    abs_gamma_exposure := |sumGE rs k|
    is_king_node := decide (k = kingStrikeOf rs) }

/-- The by-strike aggregate table, rows in ascending strike order. -/
def aggregateRows (rs : List ExposureRecord) : List StrikeRow :=
  (strikeKeysOf rs).map (strikeRowOf rs)

/-- Embedding of `GammaExposureAnalyzer.aggregate_gamma_by_strike`:
`None` in, `None` out (line 227); on the empty exposure table
(`pd.DataFrame([])` has no columns) `groupby('strike')` raises
`KeyError: 'strike'`, modelled as `Except.error`; otherwise the aggregate
rows. -/
def aggregate_gamma_by_strike (stored : Option (List ExposureRecord)) :
    Except String (Option (List StrikeRow)) :=
  match stored with
  | none => Except.ok none
  | some [] => Except.error "KeyError: strike"
  | some rs => Except.ok (some (aggregateRows rs))

/-- Distinct expirations of the exposure set, in ascending (chronological)
order: the sorted pivot columns of line 268. -/
def expirationKeysOf (rs : List ExposureRecord) : List ℕ :=
  sortedKeys (rs.map fun r => r.expiration)

/-- One pivot cell: summed `gamma_exposure` over records at `(strike k,
expiration e)`; absent combinations sum to 0 (`fill_value=0`). -/
def cellGE (rs : List ExposureRecord) (k : ℚ) (e : ℕ) : ℚ :=
  ((rs.filter fun r => decide (r.strike = k) && decide (r.expiration = e)).map
      fun r => r.gamma_exposure).sum

/-- The strike × expiration gamma matrix of
`GammaExposureAnalyzer.aggregate_gamma_by_expiration` (lines 248-270):
rows indexed by ascending strike, columns by ascending expiration. -/
def gammaMatrix (rs : List ExposureRecord) : List (List ℚ) :=
  (strikeKeysOf rs).map fun k => (expirationKeysOf rs).map fun e => cellGE rs k e

/-- Embedding of `aggregate_gamma_by_expiration` with the same `None` and
empty-table behaviour as the by-strike aggregation (`pivot_table` also
raises `KeyError` on the no-column empty DataFrame). -/
def aggregate_gamma_by_expiration (stored : Option (List ExposureRecord)) :
    Except String (Option (List (List ℚ))) :=
  match stored with
  | none => Except.ok none
  | some [] => Except.error "KeyError: strike"
  | some rs => Except.ok (some (gammaMatrix rs))

/-- Pandas `Series.quantile(0.7)` with the default linear interpolation:
sort the values ascending, take position `0.7 * (n - 1)` and interpolate
between the neighbouring order statistics. -/
def quantile70 (vals : List ℚ) : ℚ :=
  match List.insertionSort (fun a b : ℚ => a ≤ b) vals with
  | [] => 0
  | v :: tl =>
    let s := v :: tl
    let pos : ℚ := (7 / 10) * ((s.length : ℚ) - 1)
    let i : ℕ := (⌊pos⌋).toNat
    let lo := s.getD i v
    let hi := s.getD (i + 1) lo
    lo + (pos - (i : ℚ)) * (hi - lo)

/-- Descending order on `abs_gamma_exposure` used by `nlargest(3,
'abs_gamma_exposure')`; insertion sort with this relation is stable, so
ties keep first-encountered order exactly like pandas `keep='first'`. -/
def absDesc (a b : StrikeRow) : Prop :=
  b.abs_gamma_exposure ≤ a.abs_gamma_exposure

instance : DecidableRel absDesc := fun a b =>
  inferInstanceAs (Decidable (b.abs_gamma_exposure ≤ a.abs_gamma_exposure))

instance : IsTotal StrikeRow absDesc :=
  ⟨fun a b => le_total b.abs_gamma_exposure a.abs_gamma_exposure⟩

instance : IsTrans StrikeRow absDesc :=
  ⟨fun _ _ _ hab hbc => le_trans hbc hab⟩

/-- Rows sorted by descending `abs_gamma_exposure` (stable). -/
def sortDescAbs (l : List StrikeRow) : List StrikeRow :=
  List.insertionSort absDesc l

/-- Resistance candidates of `GammaExposureAnalyzer.identify_gamma_levels`
(lines 353-356): among strikes strictly above the current price, keep rows
whose `abs_gamma_exposure` is strictly greater than the partition's 0.7
quantile, then take the strikes of the top 3 rows by descending
`abs_gamma_exposure`. -/
def resistanceLevels (rows : List StrikeRow) (cp : ℚ) : List ℚ :=
  let above := rows.filter fun r => decide (cp < r.strike)
  if above = [] then []
  else
    let thr := quantile70 (above.map fun r => r.abs_gamma_exposure)
    let significant := above.filter fun r => decide (thr < r.abs_gamma_exposure)
    ((sortDescAbs significant).take 3).map fun r => r.strike

/-- Support candidates (lines 358-361), symmetric for strikes strictly
below the current price. -/
def supportLevels (rows : List StrikeRow) (cp : ℚ) : List ℚ :=
  let below := rows.filter fun r => decide (r.strike < cp)
  if below = [] then []
  else
    let thr := quantile70 (below.map fun r => r.abs_gamma_exposure)
    let significant := below.filter fun r => decide (thr < r.abs_gamma_exposure)
    ((sortDescAbs significant).take 3).map fun r => r.strike

/-- Resistance selection as the specification words it: keep rows whose
`abs_gamma_exposure` is at or above the 70th-percentile threshold (the
code instead keeps only strictly-above rows — compared in C7). -/
def resistanceLevelsSpec (rows : List StrikeRow) (cp : ℚ) : List ℚ :=
  let above := rows.filter fun r => decide (cp < r.strike)
  if above = [] then []
  else
    let thr := quantile70 (above.map fun r => r.abs_gamma_exposure)
    let kept := above.filter fun r => decide (thr ≤ r.abs_gamma_exposure)
    ((sortDescAbs kept).take 3).map fun r => r.strike

/-- Key-levels report of `identify_gamma_levels` (the fields the claims
touch). -/
structure GammaLevels where
  resistance_levels : List ℚ
  support_levels : List ℚ
  king_node_strike : Option ℚ
deriving DecidableEq, Repr, Inhabited

/-- Embedding of `GammaExposureAnalyzer.identify_gamma_levels`
(lines 320-371): it starts by calling `aggregate_gamma_by_strike`, so a
`KeyError` raised there propagates. -/
def identify_gamma_levels (stored : Option (List ExposureRecord)) (cp : ℚ) :
    Except String (Option GammaLevels) :=
  match aggregate_gamma_by_strike stored with
  | Except.error e => Except.error e
  | Except.ok none => Except.ok none
  | Except.ok (some rows) =>
    Except.ok (some
      { resistance_levels := resistanceLevels rows cp
        support_levels := supportLevels rows cp
        king_node_strike := ((rows.filter fun r => r.is_king_node).head?).map fun r => r.strike })

/-- Market-sentiment report of `analyze_market_sentiment` (lines 461-514). -/
structure Sentiment where
  regime : String
  net_gamma : ℚ
  total_positive_gamma : ℚ
  total_negative_gamma : ℚ
  near_money_gamma : ℚ
  gamma_flip_points : List ℚ
deriving DecidableEq, Repr, Inhabited

/-- Sign-change test of lines 500: strictly positive against strictly
negative (zero is not a sign). -/
def flipCond (a b : StrikeRow) : Bool :=
  (decide (0 < a.gamma_exposure) && decide (b.gamma_exposure < 0)) ||
    (decide (a.gamma_exposure < 0) && decide (0 < b.gamma_exposure))

/-- Flip-point scan of lines 494-504: for each adjacent index pair of the
strike-sorted aggregate whose gamma exposures have strictly opposite
signs, record the midpoint of the two strikes. -/
def gamma_flip_points (rows : List StrikeRow) : List ℚ :=
  (List.range (rows.length - 1)).filterMap fun i =>
    match rows.get? i, rows.get? (i + 1) with
    | some a, some b => if flipCond a b then some ((a.strike + b.strike) / 2) else none
    | _, _ => none

/-- Adjacent-pair formulation of the flip points, following the claim's
wording (`each adjacent strike pair whose exposures have strictly opposite
signs`). -/
def flipPointsSpec (rows : List StrikeRow) : List ℚ :=
  (rows.zip rows.tail).filterMap fun p =>
    if flipCond p.1 p.2 then some ((p.1.strike + p.2.strike) / 2) else none

/-- Sentiment computation on the by-strike aggregate (lines 469-513):
positive/negative/net gamma totals, near-the-money gamma over strikes
within the ±5% band of the current price, the three-way regime decision,
and the flip points. -/
def sentimentOfRows (rows : List StrikeRow) (cp : ℚ) : Sentiment :=
  let total_positive_gamma : ℚ :=
    ((rows.filter fun r => decide (0 < r.gamma_exposure)).map fun r => r.gamma_exposure).sum
  let total_negative_gamma : ℚ :=
    ((rows.filter fun r => decide (r.gamma_exposure < 0)).map fun r => r.gamma_exposure).sum
  let net_gamma : ℚ := total_positive_gamma + total_negative_gamma
  let price_range : ℚ := cp * (5 / 100)
  let near_money_gamma : ℚ :=
    ((rows.filter fun r =>
          decide (cp - price_range ≤ r.strike) && decide (r.strike ≤ cp + price_range)).map
        fun r => r.gamma_exposure).sum
  let regime : String :=
    if 0 < net_gamma ∧ 0 < near_money_gamma then
      "Positive Gamma Environment - Expect Lower Volatility"
    else if net_gamma < 0 ∧ near_money_gamma < 0 then
      "Negative Gamma Environment - Expect Higher Volatility"
    else "Mixed Gamma Environment - Moderate Volatility Expected"
  { regime := regime
    net_gamma := net_gamma
    total_positive_gamma := total_positive_gamma
    total_negative_gamma := total_negative_gamma
    near_money_gamma := near_money_gamma
    gamma_flip_points := gamma_flip_points rows }

/-- Embedding of `GammaExposureAnalyzer.analyze_market_sentiment`: it first
calls `aggregate_gamma_by_strike`, propagating `None` and any raised
error. -/
def analyze_market_sentiment (stored : Option (List ExposureRecord)) (cp : ℚ) :
    Except String (Option Sentiment) :=
  match aggregate_gamma_by_strike stored with
  | Except.error e => Except.error e
  | Except.ok none => Except.ok none
  | Except.ok (some rows) => Except.ok (some (sentimentOfRows rows cp))

namespace GammaCalculator

/-- One row of the options DataFrame consumed by
`GammaCalculator.calculate_gamma_exposure` (columns `strike`, `dte`, `iv`,
`oi`, `type`). -/
structure GCRow where
  strike : ℚ
  dte : ℚ
  iv : ℚ
  oi : ℚ
  type : OptClass
deriving DecidableEq, Repr, Inhabited

/-- One result row of `GammaCalculator.calculate_gamma_exposure`. -/
structure GCResult where
  strike : ℚ
  gamma : ℚ
  gamma_exposure : ℚ
  open_interest : ℚ
  type : OptClass
deriving DecidableEq, Repr, Inhabited

/-- Embedding of `GammaCalculator.black_scholes_gamma`
(`src/gamma_calculator.py` lines 26-52); `spot` and `rfr` are the instance
attributes, `option_type` is accepted but unused exactly as in the source. -/
def black_scholes_gamma (P : Prims) (spot rfr : ℚ)
    (strike time_to_expiry volatility : ℚ) (option_type : OptClass) : ℚ :=
  if time_to_expiry ≤ 0 ∨ volatility ≤ 0 then 0
  else
    let d1 := (P.log (spot / strike) + (rfr + (1 / 2) * volatility ^ 2) * time_to_expiry) /
      (volatility * P.sqrt time_to_expiry)
    P.pdf d1 / (spot * volatility * P.sqrt time_to_expiry)

/-- Embedding of `GammaCalculator.calculate_gamma_exposure` (lines 54-94):
one output row per input row, no filtering, and
`gamma_exposure = sign * gamma * oi * notional_multiplier * spot^2` with
`sign = +1` for puts and `-1` otherwise. -/
def calculate_gamma_exposure (P : Prims) (spot rfr : ℚ) (options_df : List GCRow)
    (notional_multiplier : ℚ) : List GCResult :=
  options_df.map fun row =>
    let gamma := black_scholes_gamma P spot rfr row.strike (row.dte / 365) row.iv row.type
    let sign : ℚ := match row.type with | OptClass.put => 1 | OptClass.call => -1
    { strike := row.strike
      gamma := gamma
      gamma_exposure := sign * gamma * row.oi * notional_multiplier * spot ^ 2
      open_interest := row.oi
      type := row.type }

end GammaCalculator

/-- Sign of the dealer gamma exposure as the claims state it: `-1` for a
call, `+1` for a put. -/
def optSign : OptClass → ℚ
  | OptClass.call => -1
  | OptClass.put => 1

/-- A concrete interpretation of the numeric primitives, used to
instantiate universally quantified statements at closed inputs. -/
def zeroPrims : Prims :=
  { log := fun _ => 0, sqrt := fun _ => 0, pdf := fun _ => 0, cdf := fun _ => 0 }

/-- A valid option record: positive open interest and volatility. -/
def oW : OptionRecord :=
  { strike := 100, expiration := 20260116, days_to_expiration := 30, type := OptClass.call,
    openInterest := some 5, impliedVolatility := some (1 / 2), lastPrice := some 3,
    volume := some 10 }

/-- A record expiring today: `days_to_expiration = 0` but positive open
interest and volatility. -/
def oDteZero : OptionRecord :=
  { strike := 100, expiration := 20260116, days_to_expiration := 0, type := OptClass.call,
    openInterest := some 5, impliedVolatility := some (1 / 2), lastPrice := none, volume := none }

/-- A record with zero open interest: excluded by the quality filter. -/
def oZeroOI : OptionRecord :=
  { strike := 100, expiration := 20260116, days_to_expiration := 30, type := OptClass.call,
    openInterest := some 0, impliedVolatility := some (1 / 2), lastPrice := none, volume := none }

/-- Concrete exposure record used in closed instances. -/
def mkExp (strike : ℚ) (e : ℕ) (ge ve oi : ℚ) : ExposureRecord :=
  { expiration := e, days_to_expiration := 10, strike := strike, type := OptClass.call,
    open_interest := oi, implied_volatility := 1 / 5, delta := 0, gamma := 0, vanna := 0,
    charm := 0, gamma_exposure := ge, vanna_exposure := ve, charm_exposure := 0, last_price := 0,
    volume := 0 }

/-- Concrete by-strike aggregate row used in closed instances. -/
def mkRow (strike ge : ℚ) : StrikeRow :=
  { strike := strike, gamma_exposure := ge, vanna_exposure := 0, open_interest := 0,
    abs_gamma_exposure := |ge|, is_king_node := false }

/-- Concrete exposure set: two strikes, two expirations. -/
def rsW : List ExposureRecord :=
  [mkExp 100 1 10 1 5, mkExp 105 1 (-10) 2 5, mkExp 100 2 3 4 5]

/-- Concrete strike-sorted aggregate with the exposure sign pattern
`[-5, +3, +2, -1, +4]` used in the spec's flip-point test vector. -/
def rowsW6 : List StrikeRow :=
  [mkRow 90 (-5), mkRow 95 3, mkRow 100 2, mkRow 105 (-1), mkRow 110 4]

/-- Concrete aggregate with strikes on both sides of the price 100. -/
def rowsW7 : List StrikeRow :=
  [mkRow 90 (-5), mkRow 95 10, mkRow 105 4, mkRow 110 (-8), mkRow 115 1]

/-- Single strike above the price whose `abs_gamma_exposure` equals the
partition's 70th percentile (a one-row partition is its own quantile). -/
def rowsC7 : List StrikeRow :=
  [mkRow 110 5]

/-- Structural-recursion formulation of the flip-point scan, used to relate
the index-based loop of the source with the adjacent-pair specification. -/
def flipRec : List StrikeRow → List ℚ
  | a :: b :: rest =>
    if flipCond a b then ((a.strike + b.strike) / 2) :: flipRec (b :: rest)
    else flipRec (b :: rest)
  | _ => []

/-- Property of C1: the emitted exposure fields follow the documented
formulas — class-dependent sign on the gamma exposure, fixed negative sign
on the vanna and charm exposures — in terms of the Greeks the pricing
model returned for the record. -/
def propC1 (P : Prims) (S r : ℚ) (o : OptionRecord) (oi : ℕ) (iv : ℚ) : Prop :=
  ((processOption P S r o).map fun e => e.gamma_exposure) =
      some (optSign o.type * (oi : ℚ) *
        (black_scholes_greeks P S o.strike ((o.days_to_expiration : ℚ) / 365) r iv o.type).gamma *
        100 * S ^ 2 * (1 / 100)) ∧
    ((processOption P S r o).map fun e => e.vanna_exposure) =
      some (-((oi : ℚ) *
        (black_scholes_greeks P S o.strike ((o.days_to_expiration : ℚ) / 365) r iv o.type).vanna *
        100 * S * (1 / 100))) ∧
    ((processOption P S r o).map fun e => e.charm_exposure) =
      some (-((oi : ℚ) *
        (black_scholes_greeks P S o.strike ((o.days_to_expiration : ℚ) / 365) r iv o.type).charm *
        100 * S * (1 / 100)))

/-- Property of C2 as the code implements it: a record yields exactly one
exposure row iff open interest is present and non-zero and implied
volatility is present and positive; `days_to_expiration` is not part of
the filter.  The second conjunct states the one-row-per-passing-record
count over any snapshot. -/
def propC2 (P : Prims) (S r : ℚ) : Prop :=
  (∀ o : OptionRecord,
      (processOption P S r o).isSome = true ↔
        ∃ oi iv, o.openInterest = some oi ∧ o.impliedVolatility = some iv ∧ oi ≠ 0 ∧ 0 < iv) ∧
    ∀ data : List OptionRecord,
      (data.filterMap (processOption P S r)).length =
        data.countP fun o => (processOption P S r o).isSome

/-- Property of C3: in the by-strike aggregate, exactly one row carries the
king-node flag; no row has a larger `abs_gamma_exposure`; any row strictly
before the flagged row (hence with a lower strike) has strictly smaller
`abs_gamma_exposure`; and rows are in strictly ascending strike order. -/
def kingNodeOk (rs : List ExposureRecord) : Prop :=
  ((aggregateRows rs).countP fun row => row.is_king_node) = 1 ∧
    (∀ i j, i < (aggregateRows rs).length → j < (aggregateRows rs).length →
      ((aggregateRows rs).getD i default).is_king_node = true →
      ((aggregateRows rs).getD j default).abs_gamma_exposure ≤
        ((aggregateRows rs).getD i default).abs_gamma_exposure) ∧
    (∀ i j, j < (aggregateRows rs).length →
      ((aggregateRows rs).getD j default).is_king_node = true → i < j →
      ((aggregateRows rs).getD i default).abs_gamma_exposure <
        ((aggregateRows rs).getD j default).abs_gamma_exposure) ∧
    List.Chain' (fun a b => a.strike < b.strike) (aggregateRows rs)

/-- Property of C5: the sentiment report exists, its `net_gamma` is the sum
of all per-strike gamma exposures, its `near_money_gamma` is the sum over
strikes within ±5% of the current price, and each regime label holds
exactly under the documented sign conditions. -/
def propC5 (rs : List ExposureRecord) (cp : ℚ) : Prop :=
  let s := sentimentOfRows (aggregateRows rs) cp
  analyze_market_sentiment (some rs) cp = Except.ok (some s) ∧
    s.net_gamma = ((aggregateRows rs).map fun row => row.gamma_exposure).sum ∧
    s.near_money_gamma =
      (((aggregateRows rs).filter fun row => decide (|row.strike - cp| ≤ cp * (5 / 100))).map
          fun row => row.gamma_exposure).sum ∧
    (s.regime = "Positive Gamma Environment - Expect Lower Volatility" ↔
      0 < s.net_gamma ∧ 0 < s.near_money_gamma) ∧
    (s.regime = "Negative Gamma Environment - Expect Higher Volatility" ↔
      s.net_gamma < 0 ∧ s.near_money_gamma < 0) ∧
    (s.regime = "Mixed Gamma Environment - Moderate Volatility Expected" ↔
      ¬(0 < s.net_gamma ∧ 0 < s.near_money_gamma) ∧ ¬(s.net_gamma < 0 ∧ s.near_money_gamma < 0))

/-- Property of C6: the flip points are exactly the midpoints of the
adjacent pairs with strictly opposite exposure signs (so a pair touching a
zero exposure contributes nothing), and they are strictly ascending. -/
def propC6 (rows : List StrikeRow) : Prop :=
  gamma_flip_points rows = flipPointsSpec rows ∧
    List.Chain' (· < ·) (gamma_flip_points rows)

/-- Property of C7 as the code implements it (strict threshold): the kept
rows of each non-empty partition are those strictly above the partition's
0.7 quantile of `abs_gamma_exposure`, and the levels are the strikes of
the first three rows of a descending stable sort of the kept rows. -/
def propC7 (rows : List StrikeRow) (cp : ℚ) : Prop :=
  let above := rows.filter fun r => decide (cp < r.strike)
  let thrA := quantile70 (above.map fun r => r.abs_gamma_exposure)
  let sigA := above.filter fun r => decide (thrA < r.abs_gamma_exposure)
  let below := rows.filter fun r => decide (r.strike < cp)
  let thrB := quantile70 (below.map fun r => r.abs_gamma_exposure)
  let sigB := below.filter fun r => decide (thrB < r.abs_gamma_exposure)
  resistanceLevels rows cp = ((sortDescAbs sigA).take 3).map (fun r => r.strike) ∧
    (sortDescAbs sigA).Perm sigA ∧
    List.Sorted absDesc (sortDescAbs sigA) ∧
    (∀ r ∈ sigA, cp < r.strike ∧ thrA < r.abs_gamma_exposure) ∧
    supportLevels rows cp = ((sortDescAbs sigB).take 3).map (fun r => r.strike) ∧
    (sortDescAbs sigB).Perm sigB ∧
    List.Sorted absDesc (sortDescAbs sigB) ∧
    ∀ r ∈ sigB, r.strike < cp ∧ thrB < r.abs_gamma_exposure

/-- Property of C8 as the code implements it: the entry point returns
`None` exactly when the snapshot is empty, the current price is missing,
or no record survives the quality filter — the sign of the current price
is never examined. -/
def propC8 (P : Prims) (r : ℚ) (data : List OptionRecord) (cp : Option ℚ) : Prop :=
  calculate_gamma_exposure P r data cp = none ↔
    data = [] ∨ cp = none ∨ ∃ S, cp = some S ∧ data.filterMap (processOption P S r) = []

/-- Property of C9: the total over all matrix cells equals the total of the
by-strike gamma column, and both equal the grand total over the record
set; the two aggregations succeed on a non-empty record set. -/
def propC9 (rs : List ExposureRecord) : Prop :=
  ((gammaMatrix rs).map List.sum).sum = ((aggregateRows rs).map fun row => row.gamma_exposure).sum ∧
    ((aggregateRows rs).map fun row => row.gamma_exposure).sum =
      (rs.map fun r => r.gamma_exposure).sum ∧
    aggregate_gamma_by_expiration (some rs) = Except.ok (some (gammaMatrix rs)) ∧
    aggregate_gamma_by_strike (some rs) = Except.ok (some (aggregateRows rs))

/-- Property of C10: the secondary calculator emits one row per input with
no filtering, follows `sign * gamma * oi * multiplier * spot^2` with no
`0.01` factor, and on records the primary implementation also accepts its
per-contract gamma exposure (at the default multiplier 100) is exactly 100
times the primary's. -/
def propC10 (P : Prims) (spot rfr : ℚ) : Prop :=
  (∀ (df : List GammaCalculator.GCRow) (mult : ℚ),
      (GammaCalculator.calculate_gamma_exposure P spot rfr df mult).length = df.length) ∧
    (∀ (row : GammaCalculator.GCRow) (mult : ℚ),
      GammaCalculator.calculate_gamma_exposure P spot rfr [row] mult =
        [{ strike := row.strike
           gamma := GammaCalculator.black_scholes_gamma P spot rfr row.strike (row.dte / 365)
             row.iv row.type
           gamma_exposure := optSign row.type *
             GammaCalculator.black_scholes_gamma P spot rfr row.strike (row.dte / 365) row.iv
               row.type * row.oi * mult * spot ^ 2
           open_interest := row.oi
           type := row.type }]) ∧
    ∀ (o : OptionRecord) (oi : ℕ) (iv : ℚ),
      o.openInterest = some oi → oi ≠ 0 → o.impliedVolatility = some iv → 0 < iv →
        ((GammaCalculator.calculate_gamma_exposure P spot rfr
            [{ strike := o.strike, dte := (o.days_to_expiration : ℚ), iv := iv, oi := (oi : ℚ),
               type := o.type }] 100).map fun g => g.gamma_exposure).head? =
          (processOption P spot rfr o).map fun e => 100 * e.gamma_exposure

/-- Sanity check matching the specification's flip-point test vector: on
the exposure sign pattern `[-5, +3, +2, -1, +4]` at strikes 90..110 there
are exactly three flip points, at the midpoints 92.5, 102.5 and 107.5. -/
theorem flip_test_vector : gamma_flip_points rowsW6 = [185 / 2, 205 / 2, 215 / 2] := by
  norm_num [gamma_flip_points, rowsW6, mkRow, flipCond, List.range_succ, List.filterMap]

theorem length_filterMap_isSome {α β : Type} (f : α → Option β) (l : List α) :
    (l.filterMap f).length = l.countP fun a => (f a).isSome := by
  induction l with
  | nil => simp
  | cons a l ih => cases h : f a <;> simp [List.filterMap_cons, h, List.countP_cons, ih]

/-- C1: for a record passing the quality filter (positive open interest and
implied volatility) and a positive spot, the emitted exposure record has
`gammaExposure = sign * openInterest * gamma * 100 * spot^2 * 0.01` with
sign `-1` for a call and `+1` for a put, while the vanna and charm
exposures are `-openInterest * greek * 100 * spot * 0.01` with the
negative sign fixed regardless of option class. -/
theorem C1_exposure_formulas (P : Prims) (S r : ℚ) (o : OptionRecord) (oi : ℕ) (iv : ℚ)
    (h1 : o.openInterest = some oi) (h2 : 0 < oi) (h3 : o.impliedVolatility = some iv)
    (h4 : 0 < iv) (h5 : 0 < S) : propC1 P S r o oi iv := by
  have hoi : ¬ oi = 0 := Nat.pos_iff_ne_zero.mp h2
  have hiv : ¬ iv ≤ 0 := not_le.mpr h4
  unfold propC1 processOption
  cases ht : o.type <;>
    simp only [h1, h3, if_neg hoi, if_neg hiv, ht, Option.map_some'] <;>
    refine ⟨?_, trivial, trivial⟩ <;>
    simp only [optSign, Option.some.injEq] <;> ring

theorem C1_witness : propC1 zeroPrims 100 (1 / 20) oW 5 (1 / 2) :=
  C1_exposure_formulas zeroPrims 100 (1 / 20) oW 5 (1 / 2) rfl (by norm_num) rfl (by norm_num)
    (by norm_num)

/-- C2 (amended): the calculator emits exactly one exposure record for a
snapshot row iff its open interest is present and non-zero and its implied
volatility is present and positive; `days_to_expiration` is not filtered,
so a record expiring today with positive open interest and volatility is
still emitted (with all-zero Greeks). -/
theorem C2_emission_filter (P : Prims) (S r : ℚ) : propC2 P S r := by
  constructor
  · intro o
    constructor
    · intro h
      cases ho : o.openInterest with
      | none => simp [processOption, ho] at h
      | some oi =>
        cases hv : o.impliedVolatility with
        | none => simp [processOption, ho, hv] at h
        | some iv =>
          by_cases hoi : oi = 0
          · simp [processOption, ho, hv, hoi] at h
          by_cases hiv : iv ≤ 0
          · simp [processOption, ho, hv, hoi, hiv] at h
          exact ⟨oi, iv, rfl, rfl, hoi, not_le.mp hiv⟩
    · rintro ⟨oi, iv, ho, hv, hoi, hiv⟩
      simp [processOption, ho, hv, hoi, not_le.mpr hiv]
  · intro data
    exact length_filterMap_isSome _ data

/-- C2 counterexample: a record with `days_to_expiration = 0` but positive
open interest and volatility is emitted (one exposure record), where the
claim requires zero records. -/
theorem C2_cex :
    oDteZero.days_to_expiration = 0 ∧ oDteZero.openInterest = some 5 ∧
      oDteZero.impliedVolatility = some (1 / 2) ∧
      (processOption zeroPrims 100 (1 / 20) oDteZero).isSome = true := by
  refine ⟨rfl, rfl, rfl, ?_⟩
  norm_num [processOption, oDteZero, black_scholes_greeks, zeroPrims]

/-- C8 (amended): the core entry point returns `None` exactly on an empty
snapshot, a missing current price, or when no record survives the quality
filter; the sign of the current price is never checked, so a non-positive
spot proceeds into the exposure computation. -/
theorem C8_entry_guard (P : Prims) (r : ℚ) (data : List OptionRecord) (cp : Option ℚ) :
    propC8 P r data cp := by
  unfold propC8
  cases cp with
  | none => simp [calculate_gamma_exposure]
  | some S =>
    have hred : calculate_gamma_exposure P r data (some S) =
        if data.filterMap (processOption P S r) = [] then none
        else some (data.filterMap (processOption P S r)) := by
      unfold calculate_gamma_exposure
      by_cases hd : data = []
      · subst hd; simp
      · simp [hd]
    rw [hred]
    constructor
    · intro h
      refine Or.inr (Or.inr ⟨S, rfl, ?_⟩)
      by_contra hl
      rw [if_neg hl] at h
      exact Option.noConfusion h
    · rintro (hd | hc | ⟨S', hSS, hl⟩)
      · subst hd; simp
      · exact Option.noConfusion hc
      · cases hSS
        rw [if_pos hl]

/-- C8 counterexample: with a negative current price and one valid record,
the computation proceeds and emits an exposure record instead of failing
fast. -/
theorem C8_cex :
    ((-50 : ℚ) ≤ 0) ∧
      (calculate_gamma_exposure zeroPrims (1 / 20) [oW] (some (-50))).isSome = true ∧
      (calculate_gamma_exposure zeroPrims (1 / 20) [oW] (some (-50))).map List.length = some 1 := by
  have h : calculate_gamma_exposure zeroPrims (1 / 20) [oW] (some (-50)) =
      some [{ expiration := 20260116, days_to_expiration := 30, strike := 100,
              type := OptClass.call, open_interest := 5, implied_volatility := 1 / 2, delta := 0,
              gamma := 0, vanna := 0, charm := 0, gamma_exposure := 0, vanna_exposure := 0,
              charm_exposure := 0, last_price := 3, volume := 10 }] := by
    norm_num [calculate_gamma_exposure, processOption, oW, black_scholes_greeks, zeroPrims,
      List.filterMap]
    exact fun hc => Option.noConfusion hc
  exact ⟨by norm_num, by rw [h]; rfl, by rw [h]; rfl⟩

theorem gamma_formula_shared (P : Prims) (S K T r sigma : ℚ) (t : OptClass) :
    (black_scholes_greeks P S K T r sigma t).gamma =
      GammaCalculator.black_scholes_gamma P S r K T sigma t := by
  by_cases h : T ≤ 0 ∨ sigma ≤ 0
  · simp [black_scholes_greeks, GammaCalculator.black_scholes_gamma, h]
  · simp [black_scholes_greeks, GammaCalculator.black_scholes_gamma, h]

/-- C10: the secondary `GammaCalculator.calculate_gamma_exposure` emits one
row per input row with no open-interest or volatility filtering, computes
`gamma_exposure = sign * gamma * oi * multiplier * spot^2` (sign `-1` for
calls, `+1` for puts, no `0.01` factor), and for a record both
implementations accept its per-contract gamma exposure at the default
multiplier 100 is exactly 100 times the primary implementation's. -/
theorem C10_secondary_vs_primary (P : Prims) (spot rfr : ℚ) : propC10 P spot rfr := by
  refine ⟨?_, ?_, ?_⟩
  · intro df mult
    simp [GammaCalculator.calculate_gamma_exposure]
  · intro row mult
    cases ht : row.type <;>
      simp [GammaCalculator.calculate_gamma_exposure, ht, optSign]
  · intro o oi iv h1 h2 h3 h4
    have hiv : ¬ iv ≤ 0 := not_le.mpr h4
    have hg := gamma_formula_shared P spot o.strike ((o.days_to_expiration : ℚ) / 365) rfr iv
      o.type
    cases ht : o.type <;>
      simp only [GammaCalculator.calculate_gamma_exposure, processOption, h1, h3, if_neg h2,
        if_neg hiv, ht, List.map_cons, List.map_nil, List.head?_cons, Option.map_some'] <;>
      rw [← ht, hg, ht] <;> ring_nf

theorem C10_witness :
    ((GammaCalculator.calculate_gamma_exposure zeroPrims 100 (1 / 20)
        [{ strike := oW.strike, dte := (oW.days_to_expiration : ℚ), iv := (1 / 2),
           oi := ((5 : ℕ) : ℚ), type := oW.type }] 100).map fun g => g.gamma_exposure).head? =
      (processOption zeroPrims 100 (1 / 20) oW).map fun e => 100 * e.gamma_exposure :=
  (C10_secondary_vs_primary zeroPrims 100 (1 / 20)).2.2 oW 5 (1 / 2) rfl (by norm_num) rfl
    (by norm_num)

/-- C4: with every contract filtered out, `calculate_gamma_exposure`
returns `None` but stores an empty exposure table; the by-strike and
by-expiration aggregations on that empty table raise `KeyError: 'strike'`
(the empty DataFrame has no columns) instead of producing an empty result,
and the downstream level identification and regime classification fail
with the same error. -/
theorem C4_empty_aggregate_raises :
    gamma_exposure_data_after zeroPrims (1 / 20) [oZeroOI] (some 100) = some [] ∧
      calculate_gamma_exposure zeroPrims (1 / 20) [oZeroOI] (some 100) = none ∧
      aggregate_gamma_by_strike (some ([] : List ExposureRecord)) =
        Except.error "KeyError: strike" ∧
      aggregate_gamma_by_expiration (some ([] : List ExposureRecord)) =
        Except.error "KeyError: strike" ∧
      analyze_market_sentiment (some ([] : List ExposureRecord)) 100 =
        Except.error "KeyError: strike" ∧
      identify_gamma_levels (some ([] : List ExposureRecord)) 100 =
        Except.error "KeyError: strike" :=
  ⟨rfl, rfl, rfl, rfl, rfl, rfl⟩

/-- C7 (amended): for non-empty partitions above and below the current
price, the kept rows are those whose `abs_gamma_exposure` is strictly
above the partition's 70th-percentile threshold, and the emitted levels
are the strikes of the first three rows of a descending sort (a
permutation of the kept rows, sorted by `abs_gamma_exposure`). -/
theorem C7_levels (rows : List StrikeRow) (cp : ℚ)
    (hA : rows.filter (fun r => decide (cp < r.strike)) ≠ [])
    (hB : rows.filter (fun r => decide (r.strike < cp)) ≠ []) : propC7 rows cp := by
  unfold propC7 resistanceLevels supportLevels
  simp only [if_neg hA, if_neg hB]
  refine ⟨trivial, List.perm_insertionSort _ _, List.sorted_insertionSort _ _, ?_, trivial,
    List.perm_insertionSort _ _, List.sorted_insertionSort _ _, ?_⟩ <;>
  · intro r hr
    rw [List.mem_filter] at hr
    obtain ⟨hr1, hr2⟩ := hr
    rw [List.mem_filter] at hr1
    exact ⟨of_decide_eq_true hr1.2, of_decide_eq_true hr2⟩

theorem C7_witness : propC7 rowsW7 100 := by
  refine C7_levels rowsW7 100 ?_ ?_ <;>
  · norm_num [rowsW7, mkRow]
    exact List.cons_ne_nil _ _

/-- C7 counterexample: a one-row partition above the price is its own 70th
percentile; with the strict comparison the code keeps nothing and returns
no resistance levels, while the claim's at-or-above rule would return that
strike. -/
theorem C7_cex :
    rowsC7.filter (fun r => decide ((100 : ℚ) < r.strike)) ≠ [] ∧
      resistanceLevels rowsC7 100 = [] ∧ resistanceLevelsSpec rowsC7 100 = [110] := by
  refine ⟨?_, ?_⟩
  · norm_num [rowsC7, mkRow]
  · constructor <;>
      norm_num [resistanceLevels, resistanceLevelsSpec, rowsC7, mkRow, quantile70, sortDescAbs,
        absDesc, List.insertionSort, List.orderedInsert]

theorem flip_eq_rec : ∀ rows : List StrikeRow, gamma_flip_points rows = flipRec rows
  | [] => rfl
  | [_] => rfl
  | a :: b :: rest => by
    have ih := flip_eq_rec (b :: rest)
    unfold flipRec
    rw [← ih]
    unfold gamma_flip_points
    simp only [List.length_cons, Nat.add_sub_cancel, List.range_succ_eq_map, List.filterMap_cons,
      List.filterMap_map]
    cases hc : flipCond a b <;>
      simp [hc] <;>
      · refine List.filterMap_congr ?_
        intro i _
        simp [Function.comp]

theorem flipSpec_eq_rec : ∀ rows : List StrikeRow, flipPointsSpec rows = flipRec rows
  | [] => rfl
  | [_] => rfl
  | a :: b :: rest => by
    have ih := flipSpec_eq_rec (b :: rest)
    unfold flipRec
    rw [← ih]
    unfold flipPointsSpec
    simp only [List.tail_cons, List.zip_cons_cons, List.filterMap_cons]
    cases hc : flipCond a b <;> simp [hc]

theorem flipRec_head_lt (a : StrikeRow) :
    ∀ tl : List StrikeRow, List.Chain' (fun x y => x.strike < y.strike) (a :: tl) →
      ∀ m ∈ flipRec (a :: tl), a.strike < m := by
  intro tl
  induction tl generalizing a with
  | nil => intro _ m hm; simp [flipRec] at hm
  | cons b rest ih =>
    intro h m hm
    rw [List.chain'_cons] at h
    unfold flipRec at hm
    have hb : ∀ m' ∈ flipRec (b :: rest), a.strike < m' := fun m' hm' =>
      lt_trans h.1 (ih b h.2 m' hm')
    by_cases hc : flipCond a b = true
    · rw [if_pos hc] at hm
      rcases List.mem_cons.mp hm with hm0 | hm1
      · subst hm0; linarith [h.1]
      · exact hb m hm1
    · rw [if_neg hc] at hm
      exact hb m hm

theorem flipRec_chain :
    ∀ rows : List StrikeRow, List.Chain' (fun x y => x.strike < y.strike) rows →
      List.Chain' (· < ·) (flipRec rows)
  | [] => fun _ => List.chain'_nil
  | [_] => fun _ => List.chain'_nil
  | a :: b :: rest => by
    intro h
    rw [List.chain'_cons] at h
    have ih := flipRec_chain (b :: rest) h.2
    unfold flipRec
    by_cases hc : flipCond a b = true
    · rw [if_pos hc]
      rw [List.chain'_cons']
      refine ⟨?_, ih⟩
      intro y hy
      have hymem : y ∈ flipRec (b :: rest) := by
        cases hfl : flipRec (b :: rest) with
        | nil => rw [hfl] at hy; simp at hy
        | cons z zs =>
          rw [hfl] at hy
          simp only [List.head?_cons, Option.mem_some_iff] at hy
          subst hy
          simp [hfl]
      have := flipRec_head_lt b rest h.2 y hymem
      have hmid : (a.strike + b.strike) / 2 < b.strike := by linarith [h.1]
      linarith
    · rw [if_neg hc]
      exact ih

/-- C6: on a by-strike aggregate whose strikes are strictly ascending, the
flip points are exactly the midpoints of the adjacent pairs with strictly
opposite exposure signs (pairs touching a zero exposure contribute
nothing), and they appear in ascending order. -/
theorem C6_flip_points (rows : List StrikeRow)
    (h : List.Chain' (fun a b => a.strike < b.strike) rows) : propC6 rows := by
  unfold propC6
  refine ⟨(flip_eq_rec rows).trans (flipSpec_eq_rec rows).symm, ?_⟩
  rw [flip_eq_rec]
  exact flipRec_chain rows h

theorem C6_witness : propC6 rowsW6 := by
  refine C6_flip_points rowsW6 ?_
  norm_num [rowsW6, mkRow, List.chain'_cons]

theorem getD_map_lt {α β : Type} (f : α → β) (l : List α) (d : α) (d' : β) (i : ℕ)
    (h : i < l.length) : (l.map f).getD i d' = f (l.getD i d) := by
  rw [List.getD_eq_getElem _ _ (by simpa using h), List.getElem_map,
    List.getD_eq_getElem _ _ h]

theorem le_maxVal : ∀ (l : List ℚ) (i : ℕ), i < l.length → l.getD i 0 ≤ maxVal l := by
  intro l
  induction l with
  | nil => intro i h; simp at h
  | cons x tl ih =>
    intro i h
    cases tl with
    | nil =>
      have hi : i = 0 := by
        have : i < 1 := by simpa using h
        omega
      subst hi
      simp [maxVal]
    | cons y ys =>
      cases i with
      | zero =>
        simpa [maxVal] using le_max_left x (maxVal (y :: ys))
      | succ j =>
        have hj : j < (y :: ys).length := by simpa using h
        calc (x :: y :: ys).getD (j + 1) 0 = (y :: ys).getD j 0 := rfl
          _ ≤ maxVal (y :: ys) := ih j hj
          _ ≤ maxVal (x :: y :: ys) := by
              simpa [maxVal] using le_max_right x (maxVal (y :: ys))

theorem idxmax_lt_length : ∀ l : List ℚ, l ≠ [] → idxmax l < l.length
  | [], h => absurd rfl h
  | [_], _ => by simp [idxmax]
  | x :: y :: ys, _ => by
    unfold idxmax
    by_cases hlt : x < maxVal (y :: ys)
    · rw [if_pos hlt]
      have := idxmax_lt_length (y :: ys) (List.cons_ne_nil _ _)
      simpa using Nat.succ_lt_succ this
    · rw [if_neg hlt]
      simp

theorem getD_idxmax : ∀ l : List ℚ, l ≠ [] → l.getD (idxmax l) 0 = maxVal l
  | [], h => absurd rfl h
  | [_], _ => rfl
  | x :: y :: ys, _ => by
    unfold idxmax
    by_cases hlt : x < maxVal (y :: ys)
    · rw [if_pos hlt]
      have ih := getD_idxmax (y :: ys) (List.cons_ne_nil _ _)
      have h1 : (x :: y :: ys).getD (idxmax (y :: ys) + 1) 0 =
          (y :: ys).getD (idxmax (y :: ys)) 0 := rfl
      have h2 : maxVal (x :: y :: ys) = max x (maxVal (y :: ys)) := rfl
      rw [h1, ih, h2, max_eq_right (le_of_lt hlt)]
    · rw [if_neg hlt]
      have h1 : (x :: y :: ys).getD 0 0 = x := rfl
      have h2 : maxVal (x :: y :: ys) = max x (maxVal (y :: ys)) := rfl
      rw [h1, h2, max_eq_left (not_lt.mp hlt)]

theorem getD_lt_of_lt_idxmax : ∀ (l : List ℚ) (i : ℕ), i < idxmax l → l.getD i 0 < maxVal l
  | [], i, h => by simp [idxmax] at h
  | [_], i, h => by simp [idxmax] at h
  | x :: y :: ys, i, h => by
    unfold idxmax at h
    by_cases hlt : x < maxVal (y :: ys)
    · rw [if_pos hlt] at h
      have hmax : maxVal (x :: y :: ys) = maxVal (y :: ys) := by
        show max x (maxVal (y :: ys)) = maxVal (y :: ys)
        exact max_eq_right (le_of_lt hlt)
      cases i with
      | zero =>
        rw [hmax]
        simpa using hlt
      | succ j =>
        have hj : j < idxmax (y :: ys) := Nat.lt_of_succ_lt_succ h
        have := getD_lt_of_lt_idxmax (y :: ys) j hj
        rw [hmax]
        exact this
    · rw [if_neg hlt] at h
      exact absurd h (Nat.not_lt_zero i)

theorem insertKey_ne_nil {α : Type} [LinearOrder α] (x : α) : ∀ l : List α, insertKey x l ≠ []
  | [] => by simp [insertKey]
  | y :: ys => by
    unfold insertKey
    by_cases h1 : x < y
    · simp [h1]
    by_cases h2 : x = y
    · simp [h1, h2]
    · simp [h1, h2]

theorem mem_insertKey {α : Type} [LinearOrder α] (x a : α) :
    ∀ l : List α, a ∈ insertKey x l ↔ a = x ∨ a ∈ l
  | [] => by simp [insertKey]
  | y :: ys => by
    unfold insertKey
    rcases lt_trichotomy x y with h1 | h2 | h3
    · rw [if_pos h1]
      simp only [List.mem_cons]
    · rw [if_neg (by rw [h2]; exact lt_irrefl y), if_pos h2]
      subst h2
      simp only [List.mem_cons]
      tauto
    · rw [if_neg (lt_asymm h3), if_neg (ne_of_gt h3)]
      simp only [List.mem_cons, mem_insertKey x a ys]
      tauto

theorem insertKey_head {α : Type} [LinearOrder α] (x : α) :
    ∀ (l : List α) (h : α), (insertKey x l).head? = some h → h = x ∨ l.head? = some h
  | [], h => by
    simp [insertKey]
    tauto
  | y :: ys, h => by
    unfold insertKey
    by_cases h1 : x < y
    · simp only [if_pos h1, List.head?_cons, Option.some.injEq]
      tauto
    by_cases h2 : x = y
    · simp only [if_neg h1, if_pos h2, List.head?_cons, Option.some.injEq]
      tauto
    · simp only [if_neg h1, if_neg h2, List.head?_cons, Option.some.injEq]
      tauto

theorem chain_insertKey {α : Type} [LinearOrder α] (x : α) :
    ∀ l : List α, List.Chain' (· < ·) l → List.Chain' (· < ·) (insertKey x l)
  | [], _ => List.chain'_singleton x
  | y :: ys, h => by
    unfold insertKey
    by_cases h1 : x < y
    · rw [if_pos h1]
      exact List.chain'_cons.mpr ⟨h1, h⟩
    by_cases h2 : x = y
    · rw [if_neg h1, if_pos h2]
      exact h
    · rw [if_neg h1, if_neg h2]
      have hyx : y < x := lt_of_le_of_ne (not_lt.mp h1) fun hyx' => h2 hyx'.symm
      have hsplit := List.chain'_cons'.mp h
      have ih := chain_insertKey x ys hsplit.2
      rw [List.chain'_cons']
      refine ⟨?_, ih⟩
      intro z hz
      rw [Option.mem_def] at hz
      rcases insertKey_head x ys z hz with rfl | hmem
      · exact hyx
      · exact hsplit.1 z (Option.mem_def.mpr hmem)

theorem chain_sortedKeys {α : Type} [LinearOrder α] (l : List α) :
    List.Chain' (· < ·) (sortedKeys l) := by
  induction l with
  | nil => exact List.chain'_nil
  | cons x tl ih => exact chain_insertKey x (sortedKeys tl) ih

theorem mem_sortedKeys_of_mem {α : Type} [LinearOrder α] {a : α} :
    ∀ {l : List α}, a ∈ l → a ∈ sortedKeys l := by
  intro l
  induction l with
  | nil => intro h; simp at h
  | cons x tl ih =>
    intro h
    show a ∈ insertKey x (sortedKeys tl)
    rw [mem_insertKey]
    rcases List.mem_cons.mp h with h1 | h2
    · exact Or.inl h1
    · exact Or.inr (ih h2)

theorem nodup_sortedKeys {α : Type} [LinearOrder α] (l : List α) : (sortedKeys l).Nodup :=
  (List.chain'_iff_pairwise.mp (chain_sortedKeys l)).imp ne_of_lt

theorem strikeKeysOf_ne_nil (rs : List ExposureRecord) (h : rs ≠ []) : strikeKeysOf rs ≠ [] := by
  cases rs with
  | nil => exact absurd rfl h
  | cons r tl =>
    intro hnil
    have hmem : r.strike ∈ strikeKeysOf (r :: tl) := mem_sortedKeys_of_mem (by simp)
    rw [hnil] at hmem
    simp at hmem

theorem countP_eq_one_of_nodup {α : Type} [DecidableEq α] (c : α) :
    ∀ l : List α, l.Nodup → c ∈ l → (l.countP fun k => decide (k = c)) = 1 := by
  intro l
  induction l with
  | nil => intro _ hmem; simp at hmem
  | cons x tl ih =>
    intro hnd hmem
    rw [List.countP_cons]
    rcases List.mem_cons.mp hmem with rfl | hmem'
    · have hnotin : c ∉ tl := (List.nodup_cons.mp hnd).1
      have hz : List.countP (fun k => decide (k = c)) tl = 0 := by
        rw [List.countP_eq_zero]
        intro a ha
        simp only [decide_eq_true_eq]
        intro hac
        exact hnotin (hac ▸ ha)
      simp [hz]
    · have ht : List.countP (fun k => decide (k = c)) tl = 1 :=
        ih (List.nodup_cons.mp hnd).2 hmem'
      have hxc : ¬ x = c := fun hxe => (List.nodup_cons.mp hnd).1 (hxe ▸ hmem')
      simp [ht, hxc]

theorem aggregateRows_length (rs : List ExposureRecord) :
    (aggregateRows rs).length = (strikeKeysOf rs).length :=
  List.length_map _ _

theorem aggregateRows_strikes_chain (rs : List ExposureRecord) :
    List.Chain' (fun a b => a.strike < b.strike) (aggregateRows rs) := by
  unfold aggregateRows
  rw [List.chain'_map]
  exact chain_sortedKeys _

theorem absGEList_getD (rs : List ExposureRecord) (i : ℕ)
    (h : i < (strikeKeysOf rs).length) :
    (absGEList rs).getD i 0 = |sumGE rs ((strikeKeysOf rs).getD i 0)| := by
  unfold absGEList
  rw [getD_map_lt _ _ 0 0 i h]

theorem aggregateRows_getD_abs (rs : List ExposureRecord) (i : ℕ)
    (h : i < (strikeKeysOf rs).length) :
    ((aggregateRows rs).getD i default).abs_gamma_exposure = (absGEList rs).getD i 0 := by
  unfold aggregateRows
  rw [getD_map_lt (strikeRowOf rs) _ 0 default i h, absGEList_getD rs i h]
  rfl

theorem aggregateRows_getD_king (rs : List ExposureRecord) (i : ℕ)
    (h : i < (strikeKeysOf rs).length) :
    ((aggregateRows rs).getD i default).is_king_node =
      decide ((strikeKeysOf rs).getD i 0 = kingStrikeOf rs) := by
  unfold aggregateRows
  rw [getD_map_lt (strikeRowOf rs) _ 0 default i h]
  rfl

/-- C3: for every non-empty exposure set, the by-strike aggregate has
exactly one row flagged `is_king_node`; that row attains the maximum
`abs_gamma_exposure`; every row at a lower index (hence a lower strike,
rows being in strictly ascending strike order) has strictly smaller
`abs_gamma_exposure`, so ties go to the lowest tying strike. -/
theorem C3_king_node (rs : List ExposureRecord) (h : rs ≠ []) : kingNodeOk rs := by
  have hks := strikeKeysOf_ne_nil rs h
  have habs : absGEList rs ≠ [] := by
    unfold absGEList
    simpa using hks
  have hlen : (absGEList rs).length = (strikeKeysOf rs).length := List.length_map _ _
  have hkidx : idxmax (absGEList rs) < (strikeKeysOf rs).length := by
    rw [← hlen]
    exact idxmax_lt_length _ habs
  refine ⟨?_, ?_, ?_, aggregateRows_strikes_chain rs⟩
  · unfold aggregateRows
    rw [List.countP_map]
    have hcomp : ((fun row => row.is_king_node) ∘ strikeRowOf rs) =
        fun k => decide (k = kingStrikeOf rs) := rfl
    rw [hcomp]
    refine countP_eq_one_of_nodup _ _ (nodup_sortedKeys _) ?_
    unfold kingStrikeOf
    rw [List.getD_eq_getElem _ _ hkidx]
    exact List.getElem_mem _
  · intro i j hi hj hk
    rw [aggregateRows_length] at hi hj
    have hik : (strikeKeysOf rs).getD i 0 = kingStrikeOf rs := by
      have h' := aggregateRows_getD_king rs i hi
      rw [hk] at h'
      exact of_decide_eq_true h'.symm
    rw [aggregateRows_getD_abs rs i hi, aggregateRows_getD_abs rs j hj]
    have heq : (absGEList rs).getD i 0 = (absGEList rs).getD (idxmax (absGEList rs)) 0 := by
      rw [absGEList_getD rs i hi, absGEList_getD rs _ hkidx, hik]
      rfl
    rw [heq, getD_idxmax _ habs]
    refine le_maxVal _ j ?_
    rw [hlen]
    exact hj
  · intro i j hj hk hij
    rw [aggregateRows_length] at hj
    have hi : i < (strikeKeysOf rs).length := lt_trans hij hj
    have hjk : (strikeKeysOf rs).getD j 0 = kingStrikeOf rs := by
      have h' := aggregateRows_getD_king rs j hj
      rw [hk] at h'
      exact of_decide_eq_true h'.symm
    have hjidx : j = idxmax (absGEList rs) := by
      have hnd := nodup_sortedKeys (rs.map fun r => r.strike)
      have heq2 : (strikeKeysOf rs).getD j 0 =
          (strikeKeysOf rs).getD (idxmax (absGEList rs)) 0 := hjk
      rw [List.getD_eq_getElem _ _ hj, List.getD_eq_getElem _ _ hkidx] at heq2
      exact (List.Nodup.getElem_inj_iff hnd).mp heq2
    rw [aggregateRows_getD_abs rs i hi, aggregateRows_getD_abs rs j hj]
    subst hjidx
    rw [getD_idxmax _ habs]
    exact getD_lt_of_lt_idxmax _ i hij

theorem C3_witness : kingNodeOk rsW := by
  refine C3_king_node rsW ?_
  simp [rsW]

theorem sum_pos_add_sum_neg (l : List ℚ) :
    (l.filter fun x => decide (0 < x)).sum + (l.filter fun x => decide (x < 0)).sum = l.sum := by
  induction l with
  | nil => simp
  | cons x tl ih =>
    by_cases hpos : 0 < x
    · have hneg : ¬ x < 0 := not_lt.mpr (le_of_lt hpos)
      simp only [List.filter_cons, decide_eq_true_eq, if_pos hpos, if_neg hneg, List.sum_cons]
      linarith [ih]
    · by_cases hneg : x < 0
      · simp only [List.filter_cons, decide_eq_true_eq, if_neg hpos, if_pos hneg, List.sum_cons]
        linarith [ih]
      · have hx0 : x = 0 := le_antisymm (not_lt.mp hpos) (not_lt.mp hneg)
        subst hx0
        simp only [List.filter_cons, decide_eq_true_eq]
        rw [if_neg hpos, if_neg hneg, List.sum_cons]
        linarith [ih]

theorem sentiment_net (rows : List StrikeRow) (cp : ℚ) :
    (sentimentOfRows rows cp).net_gamma = (rows.map fun r => r.gamma_exposure).sum := by
  show ((rows.filter fun r => decide (0 < r.gamma_exposure)).map fun r => r.gamma_exposure).sum +
      ((rows.filter fun r => decide (r.gamma_exposure < 0)).map fun r => r.gamma_exposure).sum =
      (rows.map fun r => r.gamma_exposure).sum
  have h1 : (rows.filter fun r => decide (0 < r.gamma_exposure)).map
      (fun r => r.gamma_exposure) =
      (rows.map fun r => r.gamma_exposure).filter fun x => decide (0 < x) := by
    rw [List.filter_map]
    rfl
  have h2 : (rows.filter fun r => decide (r.gamma_exposure < 0)).map
      (fun r => r.gamma_exposure) =
      (rows.map fun r => r.gamma_exposure).filter fun x => decide (x < 0) := by
    rw [List.filter_map]
    rfl
  rw [h1, h2]
  exact sum_pos_add_sum_neg _

theorem sentiment_nearmoney (rows : List StrikeRow) (cp : ℚ) :
    (sentimentOfRows rows cp).near_money_gamma =
      ((rows.filter fun r => decide (|r.strike - cp| ≤ cp * (5 / 100))).map
          fun r => r.gamma_exposure).sum := by
  show ((rows.filter fun r =>
      decide (cp - cp * (5 / 100) ≤ r.strike) && decide (r.strike ≤ cp + cp * (5 / 100))).map
        fun r => r.gamma_exposure).sum = _
  congr 2
  apply List.filter_congr
  intro r _
  rw [← Bool.decide_and]
  rw [decide_eq_decide]
  rw [abs_le]
  constructor
  · intro hb
    constructor <;> linarith [hb.1, hb.2]
  · intro hb
    constructor <;> linarith [hb.1, hb.2]

theorem regime_cases (rows : List StrikeRow) (cp : ℚ) :
    ((sentimentOfRows rows cp).regime = "Positive Gamma Environment - Expect Lower Volatility" ↔
      0 < (sentimentOfRows rows cp).net_gamma ∧ 0 < (sentimentOfRows rows cp).near_money_gamma) ∧
    ((sentimentOfRows rows cp).regime = "Negative Gamma Environment - Expect Higher Volatility" ↔
      (sentimentOfRows rows cp).net_gamma < 0 ∧ (sentimentOfRows rows cp).near_money_gamma < 0) ∧
    ((sentimentOfRows rows cp).regime = "Mixed Gamma Environment - Moderate Volatility Expected" ↔
      ¬(0 < (sentimentOfRows rows cp).net_gamma ∧
          0 < (sentimentOfRows rows cp).near_money_gamma) ∧
        ¬((sentimentOfRows rows cp).net_gamma < 0 ∧
          (sentimentOfRows rows cp).near_money_gamma < 0)) := by
  have hreg : (sentimentOfRows rows cp).regime =
      (if 0 < (sentimentOfRows rows cp).net_gamma ∧
          0 < (sentimentOfRows rows cp).near_money_gamma then
        "Positive Gamma Environment - Expect Lower Volatility"
      else if (sentimentOfRows rows cp).net_gamma < 0 ∧
          (sentimentOfRows rows cp).near_money_gamma < 0 then
        "Negative Gamma Environment - Expect Higher Volatility"
      else "Mixed Gamma Environment - Moderate Volatility Expected") := rfl
  rw [hreg]
  by_cases hP : 0 < (sentimentOfRows rows cp).net_gamma ∧
      0 < (sentimentOfRows rows cp).near_money_gamma
  · rw [if_pos hP]
    exact ⟨iff_of_true rfl hP,
      iff_of_false (by decide) fun hN => lt_asymm hP.1 hN.1,
      iff_of_false (by decide) fun hM => hM.1 hP⟩
  · by_cases hN : (sentimentOfRows rows cp).net_gamma < 0 ∧
        (sentimentOfRows rows cp).near_money_gamma < 0
    · rw [if_neg hP, if_pos hN]
      exact ⟨iff_of_false (by decide) hP, iff_of_true rfl hN,
        iff_of_false (by decide) fun hM => hM.2 hN⟩
    · rw [if_neg hP, if_neg hN]
      exact ⟨iff_of_false (by decide) hP, iff_of_false (by decide) hN,
        iff_of_true rfl ⟨hP, hN⟩⟩

/-- C5: for a non-empty exposure set and positive current price, the
sentiment report's `net_gamma` is the sum of all per-strike gamma
exposures, `near_money_gamma` is the sum over strikes within ±5% of the
price, and the three regime labels hold exactly under the documented
netGamma/nearMoneyGamma sign conditions. -/
theorem C5_regime (rs : List ExposureRecord) (cp : ℚ) (h1 : rs ≠ []) (h2 : 0 < cp) :
    propC5 rs cp := by
  simp only [propC5]
  refine ⟨?_, sentiment_net _ _, sentiment_nearmoney _ _, (regime_cases _ _).1,
    (regime_cases _ _).2.1, (regime_cases _ _).2.2⟩
  cases rs with
  | nil => exact absurd rfl h1
  | cons a tl => rfl

theorem C5_witness : propC5 rsW 100 := by
  refine C5_regime rsW 100 ?_ (by norm_num)
  simp [rsW]

theorem sum_map_filter_split {α : Type} (p : α → Bool) (f : α → ℚ) (l : List α) :
    ((l.filter p).map f).sum + ((l.filter fun a => !(p a)).map f).sum = (l.map f).sum := by
  induction l with
  | nil => simp
  | cons a tl ih =>
    cases hp : p a <;>
      simp only [List.filter_cons, hp, Bool.not_true, Bool.not_false, if_pos, if_neg,
        Bool.false_eq_true, if_false, if_true, List.map_cons, List.sum_cons] <;>
      linarith [ih]

theorem sum_partition {α κ : Type} [DecidableEq κ] (key : α → κ) (f : α → ℚ) :
    ∀ (ks : List κ) (l : List α), ks.Nodup → (∀ a ∈ l, key a ∈ ks) →
      (ks.map fun k => ((l.filter fun a => decide (key a = k)).map f).sum).sum =
        (l.map f).sum := by
  intro ks
  induction ks with
  | nil =>
    intro l _ hcov
    cases l with
    | nil => simp
    | cons a tl => exact absurd (hcov a (by simp)) (by simp)
  | cons k ks ih =>
    intro l hnd hcov
    rw [List.map_cons, List.sum_cons]
    have hcong : (ks.map fun k' => ((l.filter fun a => decide (key a = k')).map f).sum) =
        ks.map fun k' =>
          (((l.filter fun a => !(decide (key a = k))).filter
              fun a => decide (key a = k')).map f).sum := by
      apply List.map_congr_left
      intro k' hk'
      have hkk : k' ≠ k := fun he => (List.nodup_cons.mp hnd).1 (he ▸ hk')
      congr 2
      rw [List.filter_filter]
      apply List.filter_congr
      intro a _
      cases hda : decide (key a = k') with
      | false => simp
      | true =>
        have hak : key a = k' := of_decide_eq_true hda
        have hnk : ¬ key a = k := fun hc => hkk (hak ▸ hc)
        simp [hnk]
    have hcov' : ∀ a ∈ l.filter fun a => !(decide (key a = k)), key a ∈ ks := by
      intro a ha
      have hmem := List.mem_filter.mp ha
      have hne : ¬ key a = k := by
        have := hmem.2
        simpa using this
      have := hcov a hmem.1
      rcases List.mem_cons.mp this with hc | hc
      · exact absurd hc hne
      · exact hc
    have hih := ih (l.filter fun a => !(decide (key a = k))) (List.nodup_cons.mp hnd).2 hcov'
    rw [hcong, hih]
    exact sum_map_filter_split (fun a => decide (key a = k)) f l

theorem aggregateRows_total (rs : List ExposureRecord) :
    ((aggregateRows rs).map fun row => row.gamma_exposure).sum =
      (rs.map fun r => r.gamma_exposure).sum := by
  unfold aggregateRows
  rw [List.map_map]
  exact sum_partition (fun r : ExposureRecord => r.strike) (fun r => r.gamma_exposure)
    (strikeKeysOf rs) rs (nodup_sortedKeys _)
    (fun a ha => mem_sortedKeys_of_mem (List.mem_map_of_mem _ ha))

theorem gammaMatrix_row_sum (rs : List ExposureRecord) (k : ℚ) :
    ((expirationKeysOf rs).map fun e => cellGE rs k e).sum = sumGE rs k := by
  have hcell : ∀ e ∈ expirationKeysOf rs, cellGE rs k e =
      (((rs.filter fun r => decide (r.strike = k)).filter
          fun r => decide (r.expiration = e)).map fun r => r.gamma_exposure).sum := by
    intro e _
    unfold cellGE
    congr 2
    rw [List.filter_filter]
    apply List.filter_congr
    intro a _
    exact (Bool.and_comm _ _).symm
  rw [List.map_congr_left hcell]
  exact sum_partition (fun r : ExposureRecord => r.expiration) (fun r => r.gamma_exposure)
    (expirationKeysOf rs) (rs.filter fun r => decide (r.strike = k)) (nodup_sortedKeys _)
    (fun a ha =>
      mem_sortedKeys_of_mem (List.mem_map_of_mem _ (List.mem_filter.mp ha).1))

theorem gammaMatrix_total (rs : List ExposureRecord) :
    ((gammaMatrix rs).map List.sum).sum =
      ((aggregateRows rs).map fun row => row.gamma_exposure).sum := by
  unfold gammaMatrix aggregateRows
  rw [List.map_map, List.map_map]
  exact congrArg List.sum (List.map_congr_left fun k _ => gammaMatrix_row_sum rs k)

/-- C9: for every non-empty exposure set, the sum of all cells of the
strike × expiration gamma matrix equals the sum of the by-strike gamma
column, and both equal the grand total over the record set; both
aggregations succeed (no error) on non-empty input. -/
theorem C9_matrix_roundtrip (rs : List ExposureRecord) (h : rs ≠ []) : propC9 rs := by
  refine ⟨gammaMatrix_total rs, aggregateRows_total rs, ?_, ?_⟩ <;>
    (cases rs with
     | nil => exact absurd rfl h
     | cons a tl => rfl)

theorem C9_witness : propC9 rsW := by
  refine C9_matrix_roundtrip rsW ?_
  simp [rsW]

theorem C2_witness : propC2 zeroPrims 100 (1 / 20) :=
  C2_emission_filter zeroPrims 100 (1 / 20)

theorem C8_witness : propC8 zeroPrims (1 / 20) [oW] (some 100) :=
  C8_entry_guard zeroPrims (1 / 20) [oW] (some 100)
